import Mathlib

/-!
Shallow embedding of the blesstest preprocessing pipeline
(`src/blesstest/preprocessing.py`): a declarative test-case template
resolution engine with `base` inheritance, nested `variations`, bracket
parameter sweeps, deterministic name generation (SHA-256 based), and
abstract-case filtering.

Python dicts are modelled as insertion-ordered association lists with
unique keys; parameter values are a JSON-like inductive; exceptions are
modelled with `Except`; recursive tree walks carry explicit fuel (the
Python versions recurse without bound, so fuel exhaustion is a distinct
error constructor that faithful inputs never reach).
-/

set_option maxRecDepth 4000

/-- JSON-like parameter value (`ParamValue = Any` in the source; the
inputs of interest carry ints, strings, bools and lists thereof).
Lists are encoded as cons cells so that equality is derivable. -/
inductive Val where
  | int (i : Int)
  | str (s : String)
  | bool (b : Bool)
  | vnil
  | vcons (hd tl : Val)
deriving DecidableEq, Repr

/-- Builds a list-shaped `Val` from a `List Val` literal. -/
def vlist (l : List Val) : Val := l.foldr .vcons .vnil

/-- `isinstance(param_value, list)` -/
def Val.isList : Val → Bool
  | .vnil => true
  | .vcons _ _ => true
  | _ => false

/-- Elements of a list-shaped value. -/
def Val.toList : Val → List Val
  | .vcons h t => h :: t.toList
  | _ => []

/-- `sep.join(parts)` -/
def pyJoin (sep : String) : List String → String
  | [] => ""
  | [x] => x
  | x :: xs => x ++ sep ++ pyJoin sep xs

/-- Python `repr()` rendering, fueled on list nesting depth (the inputs
of interest nest a couple of levels at most). -/
def Val.pyReprF : Nat → Val → String
  | _, .int i => toString i
  | _, .str s => "'" ++ s ++ "'"
  | _, .bool b => if b then "True" else "False"
  | _, .vnil => "[]"
  | 0, .vcons _ _ => "[...]"
  | f + 1, v => "[" ++ pyJoin ", " ((Val.toList v).map (Val.pyReprF f)) ++ "]"

/-- Python `str()` rendering as used by the f-strings of
`_generate_variation_name`: identical to `repr` except on strings. -/
def Val.pyStr : Val → String
  | .str s => s
  | v => Val.pyReprF 100 v

/-- One constructor per distinct `raise ValueError` site of the source
(the spec's error taxonomy).  `fuel` is the artifact of the fueled
embedding and corresponds to no source behaviour. -/
inductive Err where
  | missingBase
  | cycle
  | conflict
  | ambiguousBracket
  | badTupleShape
  | bracketWithVariations
  | overlappingKeys
  | missingHarness
  | nameCollision
  | notAString
  | fuel
deriving DecidableEq, Repr

/-- Insertion-ordered association list standing for a Python `dict`. -/
abbrev Dict (α : Type) := List (String × α)

def dictLookup {α : Type} (d : Dict α) (k : String) : Option α :=
  (d.find? (fun p => p.1 = k)).map (fun p => p.2)

def dictContains {α : Type} (d : Dict α) (k : String) : Bool :=
  d.any (fun p => p.1 = k)

/-- `d[k] = v` on a Python dict: overwrite in place if present, else
append (insertion order preserved). -/
def dictInsert {α : Type} (d : Dict α) (k : String) (v : α) : Dict α :=
  if dictContains d k then d.map (fun p => if p.1 = k then (k, v) else p)
  else d ++ [(k, v)]

/-- `{**d1, **d2}` -/
def dictMerge {α : Type} (d1 d2 : Dict α) : Dict α :=
  d2.foldl (fun acc p => dictInsert acc p.1 p.2) d1

/-- `del d[k]` (keys are unique, so filtering is removal). -/
def dictRemove {α : Type} (d : Dict α) (k : String) : Dict α :=
  d.filter (fun p => ¬(p.1 = k))

/-- Truthiness of `Optional[str]`: `None` and `""` are falsy. -/
def optStrTruthy : Option String → Bool
  | none => false
  | some s => ¬(s = "")

/-- Truthiness of `Optional[List[...]]`: `None` and `[]` are falsy. -/
def optListTruthy {α : Type} : Option (List α) → Bool
  | none => false
  | some l => ¬l.isEmpty

/-- The `CaseInfo` pydantic model (with the `base` field of
`ResolvableBaseCaseInfo`; merged results always carry `base = none`). -/
inductive CaseInfo where
  | mk (abstract : Bool) (params : Dict Val) (harness : Option String)
      (name : Option String) (variations : Option (List CaseInfo))
      (base : Option String)

def CaseInfo.abstract : CaseInfo → Bool
  | .mk a _ _ _ _ _ => a

def CaseInfo.params : CaseInfo → Dict Val
  | .mk _ p _ _ _ _ => p

def CaseInfo.harness : CaseInfo → Option String
  | .mk _ _ h _ _ _ => h

def CaseInfo.cname : CaseInfo → Option String
  | .mk _ _ _ n _ _ => n

def CaseInfo.variations : CaseInfo → Option (List CaseInfo)
  | .mk _ _ _ _ v _ => v

def CaseInfo.base : CaseInfo → Option String
  | .mk _ _ _ _ _ b => b

/-- `model_copy(update := variations)` -/
def CaseInfo.withVariations : CaseInfo → Option (List CaseInfo) → CaseInfo
  | .mk a p h n _ b, v => .mk a p h n v b

/-- The terminal `PreprocessedCaseInfo` record. -/
structure PreprocessedCaseInfo where
  params : Dict Val
  harness : String
deriving DecidableEq, Repr

/-! ### Hashing and encoding (`hashlib.sha256`, `base64.b64encode`) -/

/-- UTF-8 encoding of one code point (`str.encode()`). -/
def utf8Char (c : Char) : List Nat :=
  let n := c.toNat
  if n < 128 then [n]
  else if n < 2048 then [192 + n / 64, 128 + n % 64]
  else if n < 65536 then [224 + n / 4096, 128 + (n / 64) % 64, 128 + n % 64]
  else [240 + n / 262144, 128 + (n / 4096) % 64, 128 + (n / 64) % 64, 128 + n % 64]

/-- `s.encode()` as a byte list. -/
def strBytes (s : String) : List Nat := s.data.flatMap utf8Char

/-- Big-endian byte rendering of `x` over `n` bytes. -/
def bytesBE (n : Nat) (x : Nat) : List Nat :=
  (List.range n).map (fun i => (x >>> (8 * (n - 1 - i))) % 256)

def add32 (l : List Nat) : Nat := (l.foldl (· + ·) 0) % 4294967296

def rotr32 (k x : Nat) : Nat := (x >>> k) + ((x % (2 ^ k)) <<< (32 - k))

def sha256InitH : List Nat :=
  [1779033703, 3144134277, 1013904242, 2773480762,
   1359893119, 2600822924, 528734635, 1541459225]

def sha256K : List Nat :=
  [1116352408, 1899447441, 3049323471, 3921009573, 961987163,
   1508970993, 2453635748, 2870763221, 3624381080, 310598401,
   607225278, 1426881987, 1925078388, 2162078206, 2614888103,
   3248222580, 3835390401, 4022224774, 264347078, 604807628,
   770255983, 1249150122, 1555081692, 1996064986, 2554220882,
   2821834349, 2952996808, 3210313671, 3336571891, 3584528711,
   113926993, 338241895, 666307205, 773529912, 1294757372,
   1396182291, 1695183700, 1986661051, 2177026350, 2456956037,
   2730485921, 2820302411, 3259730800, 3345764771, 3516065817,
   3600352804, 4094571909, 275423344, 430227734, 506948616,
   659060556, 883997877, 958139571, 1322822218, 1537002063,
   1747873779, 1955562222, 2024104815, 2227730452, 2361852424,
   2428436474, 2756734187, 3204031479, 3329325298]

def sha256Pad (msg : List Nat) : List Nat :=
  let z := (64 + 55 - msg.length % 64) % 64
  msg ++ [128] ++ List.replicate z 0 ++ bytesBE 8 (msg.length * 8)

/-- Splits the padded message into `n` blocks of 64 bytes. -/
def sha256Blocks : Nat → List Nat → List (List Nat)
  | 0, _ => []
  | n + 1, l => l.take 64 :: sha256Blocks n (l.drop 64)

def sha256BlockWords (block : List Nat) : List Nat :=
  (List.range 16).map (fun i =>
    (block.getD (4 * i) 0) * 16777216 + (block.getD (4 * i + 1) 0) * 65536 +
    (block.getD (4 * i + 2) 0) * 256 + block.getD (4 * i + 3) 0)

def sha256Sig0 (x : Nat) : Nat := (rotr32 7 x) ^^^ (rotr32 18 x) ^^^ (x >>> 3)
def sha256Sig1 (x : Nat) : Nat := (rotr32 17 x) ^^^ (rotr32 19 x) ^^^ (x >>> 10)
def sha256BigSig0 (x : Nat) : Nat := (rotr32 2 x) ^^^ (rotr32 13 x) ^^^ (rotr32 22 x)
def sha256BigSig1 (x : Nat) : Nat := (rotr32 6 x) ^^^ (rotr32 11 x) ^^^ (rotr32 25 x)
def sha256Ch (x y z : Nat) : Nat := (x &&& y) ^^^ ((x ^^^ 4294967295) &&& z)
def sha256Maj (x y z : Nat) : Nat := (x &&& y) ^^^ (x &&& z) ^^^ (y &&& z)

/-- Extends the 16-word schedule by `n` further words. -/
def sha256Extend : List Nat → Nat → List Nat
  | ws, 0 => ws
  | ws, n + 1 =>
    let i := ws.length
    let w := add32 [ws.getD (i - 16) 0, sha256Sig0 (ws.getD (i - 15) 0),
                    ws.getD (i - 7) 0, sha256Sig1 (ws.getD (i - 2) 0)]
    sha256Extend (ws ++ [w]) n

def sha256Round (regs : List Nat) (kw : Nat × Nat) : List Nat :=
  match regs with
  | [a, b, c, d, e, f, g, h] =>
    let t1 := add32 [h, sha256BigSig1 e, sha256Ch e f g, kw.1, kw.2]
    let t2 := add32 [sha256BigSig0 a, sha256Maj a b c]
    [add32 [t1, t2], a, b, c, add32 [d, t1], e, f, g]
  | _ => regs

def sha256Block (hs : List Nat) (block : List Nat) : List Nat :=
  let ws := sha256Extend (sha256BlockWords block) 48
  let regs := (sha256K.zip ws).foldl sha256Round hs
  List.zipWith (fun a b => add32 [a, b]) hs regs

/-- SHA-256 digest (32 bytes) of a byte list. -/
def sha256 (msg : List Nat) : List Nat :=
  let padded := sha256Pad msg
  let hs := (sha256Blocks (padded.length / 64) padded).foldl sha256Block sha256InitH
  hs.flatMap (bytesBE 4)

/-- Standard base64 alphabet (`base64.b64encode`). -/
def b64AlphaStd : List Char :=
  "ABCDEFGHIJKLMNOPQRSTUVWXYZabcdefghijklmnopqrstuvwxyz0123456789+/".data

/-- URL-safe base64 alphabet (`base64.urlsafe_b64encode`). -/
def b64AlphaUrl : List Char :=
  "ABCDEFGHIJKLMNOPQRSTUVWXYZabcdefghijklmnopqrstuvwxyz0123456789-_".data

def b64Enc (alpha : List Char) : List Nat → List Char
  | b1 :: b2 :: b3 :: rest =>
    let n := b1 * 65536 + b2 * 256 + b3
    alpha.getD ((n >>> 18) % 64) '?' :: alpha.getD ((n >>> 12) % 64) '?' ::
    alpha.getD ((n >>> 6) % 64) '?' :: alpha.getD (n % 64) '?' :: b64Enc alpha rest
  | [b1, b2] =>
    let n := b1 * 65536 + b2 * 256
    [alpha.getD ((n >>> 18) % 64) '?', alpha.getD ((n >>> 12) % 64) '?',
     alpha.getD ((n >>> 6) % 64) '?', '=']
  | [b1] =>
    let n := b1 * 65536
    [alpha.getD ((n >>> 18) % 64) '?', alpha.getD ((n >>> 12) % 64) '?', '=', '=']
  | [] => []

/-- `base64.b64encode(bs).rstrip(b"=").decode("ascii")` (alphabet chosen
by the caller). -/
def b64NoPad (alpha : List Char) (bs : List Nat) : String :=
  String.mk (((b64Enc alpha bs).reverse.dropWhile (fun c => c = '=')).reverse)

/-! ### Name generation (`_generate_variation_name`) -/

/-- Stable insertion sort by key — `sorted(params.items())` (keys are
unique, so comparison never reaches the values). -/
def insertByKey (x : String × Val) : Dict Val → Dict Val
  | [] => [x]
  | y :: ys => if x.1 < y.1 then x :: y :: ys else y :: insertByKey x ys

def sortByKey : Dict Val → Dict Val
  | [] => []
  | x :: xs => insertByKey x (sortByKey xs)

/-- The `param_str_parts` token list: `key_value` tokens of the branch's
own parameters sorted by key, with the branch's own harness (if truthy)
prepended. -/
def variationTokens (v : CaseInfo) : List String :=
  let parts := (sortByKey v.params).map (fun kv => kv.1 ++ "_" ++ Val.pyStr kv.2)
  if optStrTruthy v.harness then v.harness.getD "" :: parts else parts

def MAX_PARAM_STR_LEN : Nat := 32

/-- `_generate_variation_name` -/
def generate_variation_name (baseName : String) (variationData : CaseInfo) : String :=
  if optStrTruthy variationData.cname then
    baseName ++ "__" ++ variationData.cname.getD ""
  else
    let parts := variationTokens variationData
    if parts.isEmpty then baseName
    else
      let paramStr := pyJoin "__" parts
      if paramStr.length ≤ MAX_PARAM_STR_LEN then baseName ++ "__" ++ paramStr
      else
        let variationHash := b64NoPad b64AlphaStd (sha256 (strBytes paramStr))
        baseName ++ "__" ++ (paramStr.take MAX_PARAM_STR_LEN) ++ "__" ++
          (variationHash.take 3)

/-! ### Conflict checking and variation cross-merge
(`_check_conflict`, `_expand_variations`, `_merge_base_and_variation`) -/

/-- The parameter loop of `_check_conflict`. -/
def checkParamsConflict : List (String × Val) → Dict Val → Except Err Unit
  | [], _ => .ok ()
  | (k, v) :: rest, d =>
    match dictLookup d k with
    | some v2 => if ¬(v2 = v) then .error .conflict else checkParamsConflict rest d
    | none => checkParamsConflict rest d

/-- `_check_conflict` -/
def check_conflict (originalVariation dontConflictWith : CaseInfo) : Except Err Unit :=
  if optStrTruthy originalVariation.harness ∧ optStrTruthy dontConflictWith.harness ∧
      ¬(originalVariation.harness = dontConflictWith.harness) then
    .error .conflict
  else
    checkParamsConflict originalVariation.params dontConflictWith.params

/-- `for original_variation in original_variations or []: _check_conflict(...)` -/
def checkAllConflicts : List CaseInfo → CaseInfo → Except Err Unit
  | [], _ => .ok ()
  | ov :: rest, dcw => do
    check_conflict ov dcw
    checkAllConflicts rest dcw

/-- `_expand_variations`, fueled on recursion depth. -/
def expand_variations (fuel : Nat) (originalVariations variationsToAdd : Option (List CaseInfo))
    (dontConflictWith : CaseInfo) : Except Err (Option (List CaseInfo)) :=
  match fuel with
  | 0 => .error .fuel
  | f + 1 => do
    checkAllConflicts (originalVariations.getD []) dontConflictWith
    if ¬optListTruthy originalVariations then return variationsToAdd
    else if ¬optListTruthy variationsToAdd then return originalVariations
    else do
      let editedVariations ← (originalVariations.getD []).foldlM
        (fun (acc : List CaseInfo) ov => do
          let someEditedSubVariations ←
            expand_variations f ov.variations variationsToAdd dontConflictWith
          let editedVariation := ov.withVariations someEditedSubVariations
          if optListTruthy someEditedSubVariations then return acc ++ [editedVariation]
          else return acc) []
      if editedVariations.length = 0 then return none
      else return (some editedVariations)

/-- `_merge_base_and_variation` -/
def merge_base_and_variation (fuel : Nat) (baseCase variantCase : CaseInfo)
    (preserveAbstract : Bool) : Except Err CaseInfo := do
  let variantCaseVariations ←
    expand_variations fuel baseCase.variations variantCase.variations variantCase
  return CaseInfo.mk
    (variantCase.abstract || (preserveAbstract && baseCase.abstract))
    (dictMerge baseCase.params variantCase.params)
    (if optStrTruthy variantCase.harness then variantCase.harness else baseCase.harness)
    variantCase.cname
    variantCaseVariations
    none

/-! ### Base resolution (`resolve_bases`) -/

/-- The inner `process_case` of `resolve_bases`: returns the updated memo
dictionary together with the resolved case. -/
def processCase (fuel : Nat) (caseName : String) (rawTestCases : Dict CaseInfo)
    (processingStack : List String) (processedCases : Dict CaseInfo) :
    Except Err (Dict CaseInfo × CaseInfo) :=
  match fuel with
  | 0 => .error .fuel
  | f + 1 =>
    match dictLookup processedCases caseName with
    | some c => .ok (processedCases, c)
    | none =>
      match dictLookup rawTestCases caseName with
      | none => .error .missingBase
      | some currentCaseInfo =>
        if caseName ∈ processingStack then .error .cycle
        else
          match currentCaseInfo.base with
          | none => .ok (dictInsert processedCases caseName currentCaseInfo, currentCaseInfo)
          | some b => do
            let (processed2, baseCaseInfo) ←
              processCase f b rawTestCases (caseName :: processingStack) processedCases
            let merged ← merge_base_and_variation f baseCaseInfo currentCaseInfo false
            return (dictInsert processed2 caseName merged, merged)

def RESOLVE_FUEL : Nat := 1000

/-- `resolve_bases` -/
def resolve_bases (rawTestCases : Dict CaseInfo) : Except Err (Dict CaseInfo) :=
  rawTestCases.foldlM
    (fun processed p => (processCase RESOLVE_FUEL p.1 rawTestCases [] processed).map
      (fun r => r.1))
    []

/-! ### Variation expansion (`resolve_variations`) -/

/-- The inner `_expand_recursive` of `resolve_variations` (its
`original_input_names` parameter is never read in the source and is
dropped here). -/
def expandRecursive (fuel : Nat) (currentCaseName : String) (currentCaseInfo : CaseInfo)
    (accumulated : Dict CaseInfo) : Except Err (Dict CaseInfo) :=
  match fuel with
  | 0 => .error .fuel
  | f + 1 =>
    match currentCaseInfo.variations with
    | none =>
      if ¬optStrTruthy currentCaseInfo.harness ∧ ¬currentCaseInfo.abstract then
        .error .missingHarness
      else if dictContains accumulated currentCaseName then .error .nameCollision
      else .ok (accumulated ++ [(currentCaseName, currentCaseInfo)])
    | some variationItems =>
      variationItems.foldlM
        (fun acc variationItem => do
          let newCaseName := generate_variation_name currentCaseName variationItem
          let stripped := currentCaseInfo.withVariations none
          let merged ← merge_base_and_variation f stripped variationItem true
          expandRecursive f newCaseName merged acc)
        accumulated

/-- `resolve_variations` -/
def resolve_variations (resolvedBaseCases : Dict CaseInfo) : Except Err (Dict CaseInfo) :=
  resolvedBaseCases.foldlM
    (fun acc p => expandRecursive RESOLVE_FUEL p.1 p.2 acc) []

/-! ### Bracket-syntax expansion (`_expand_parameter_variations`) -/

/-- ASCII approximation of the regex class `\w`. -/
def isWordChar (c : Char) : Bool := c.isAlphanum || c = '_'

/-- The regex class `\s`. -/
def isPySpace (c : Char) : Bool :=
  c = ' ' || c = '\t' || c = '\n' || c = '\r' || c = '\x0b' || c = '\x0c'

/-- `re.fullmatch(r"\[(\w+)\]", key)`, returning the captured group. -/
def singleMatch (s : String) : Option String :=
  match s.data with
  | '[' :: rest =>
    let inner := rest.dropLast
    if rest.getLastD ' ' = ']' ∧ ¬inner.isEmpty ∧ inner.all isWordChar then
      some (String.mk inner)
    else none
  | _ => none

/-- `body.split(",")` on a character list. -/
def splitOnComma : List Char → List (List Char)
  | [] => [[]]
  | ',' :: rest => [] :: splitOnComma rest
  | c :: rest =>
    match splitOnComma rest with
    | g :: gs => (c :: g) :: gs
    | [] => [[c]]

/-- `part.strip()` -/
def pyStrip (cs : List Char) : List Char :=
  ((cs.dropWhile isPySpace).reverse.dropWhile isPySpace).reverse

/-- Checks `(?:,\s*\w+)*` after the first `\w+` group, fueled on the
remaining characters (each step consumes at least the comma). -/
def bracketBodyTail : Nat → List Char → Bool
  | _, [] => true
  | 0, _ => false
  | fl + 1, ',' :: rest =>
    let r := rest.dropWhile isPySpace
    let w := r.takeWhile isWordChar
    ¬w.isEmpty && bracketBodyTail fl (r.drop w.length)
  | _ + 1, _ => false

/-- Checks the full multi-bracket body grammar `\w+(?:,\s*\w+)*`. -/
def bracketBodyOk (cs : List Char) : Bool :=
  let w := cs.takeWhile isWordChar
  ¬w.isEmpty && bracketBodyTail cs.length (cs.drop w.length)

/-- `re.fullmatch(r"\[\[(\w+(?:,\s*\w+)*)\]\]", key)`, returning the
stripped name list `[p.strip() for p in body.split(",")]`. -/
def multiMatch (s : String) : Option (List String) :=
  match s.data with
  | '[' :: '[' :: rest =>
    let body := rest.dropLast.dropLast
    if rest.getLastD ' ' = ']' ∧ rest.dropLast.getLastD ' ' = ']' ∧ bracketBodyOk body then
      some ((splitOnComma body).map (fun cs => String.mk (pyStrip cs)))
    else none
  | _ => none

/-- `dict(zip(param_names, value_tuple))` -/
def zipToDict (names : List String) (vals : List Val) : Dict Val :=
  (names.zip vals).foldl (fun d p => dictInsert d p.1 p.2) []

/-- State threaded through the parameter-collection loop of
`_expand_parameter_variations`: collected variation groups, keys to
remove, and the `has_param_variations` flag. -/
abbrev CollectState := List (List (Dict Val)) × List String × Bool

/-- One iteration of the `for param_key, param_value in params.items()`
collection loop. -/
def collectParamVariation (st : CollectState) (kv : String × Val) :
    Except Err CollectState := do
  let (groups, removals, hasPV) := st
  let (groups, removals, isPV) :=
    match singleMatch kv.1 with
    | some paramName =>
      if kv.2.isList then
        (groups ++ [kv.2.toList.map (fun v => [(paramName, v)])], removals ++ [kv.1], true)
      else (groups, removals, false)
    | none => (groups, removals, false)
  match multiMatch kv.1 with
  | some paramNames =>
    if kv.2.isList then do
      if isPV then throw Err.ambiguousBracket
      let group ← kv.2.toList.mapM (fun tup => do
        if ¬tup.isList ∨ ¬(tup.toList.length = paramNames.length) then
          throw Err.badTupleShape
        else
          return (zipToDict paramNames tup.toList))
      return (groups ++ [group], removals ++ [kv.1], true)
    else return (groups, removals, hasPV || isPV)
  | none => return (groups, removals, hasPV || isPV)

/-- `itertools.product(*param_variation_groups)` (leftmost group varies
slowest, as in Python). -/
def prodGroups : List (List (Dict Val)) → List (List (Dict Val))
  | [] => [[]]
  | g :: gs => g.flatMap (fun x => (prodGroups gs).map (fun t => x :: t))

/-- The per-product-tuple merge with the overlapping-keys check. -/
def mergeTupleDicts (tup : List (Dict Val)) : Except Err (Dict Val) :=
  tup.foldlM
    (fun merged d =>
      if d.any (fun p => dictContains merged p.1) then throw Err.overlappingKeys
      else pure (dictMerge merged d))
    []

/-- `_expand_parameter_variations`, made functional: the Python version
communicates through in-place mutation of its argument, so the embedding
returns the post-state of the template. -/
def expand_parameter_variations : Nat → CaseInfo → Except Err CaseInfo
  | 0, _ => .error .fuel
  | f + 1, .mk ab ps h nm vars b => do
    let (groups, removals, hasPV) ← ps.foldlM collectParamVariation ([], [], false)
    if optListTruthy vars ∧ hasPV then throw Err.bracketWithVariations
    let (params2, variations2) ←
      if ¬groups.isEmpty then do
        let params2 := removals.foldl dictRemove ps
        let combined ← (prodGroups groups).mapM (fun tup => do
          let merged ← mergeTupleDicts tup
          return CaseInfo.mk false merged none none none none)
        pure (params2, if ¬combined.isEmpty then some combined else none)
      else
        pure (ps, vars)
    let variations3 ←
      match variations2 with
      | none => pure none
      | some vs => do
        let vs2 ← vs.mapM (expand_parameter_variations f)
        pure (some vs2)
    return CaseInfo.mk ab params2 h nm variations3 b

/-! ### Full pipeline (`preprocess_test_cases`, `ensure_string`) -/

/-- `ensure_string` applied to an `Optional[str]` harness. -/
def ensure_string : Option String → Except Err String
  | some s => .ok s
  | none => .error .notAString

/-- `preprocess_test_cases`: bracket expansion, base resolution,
variation expansion, then the abstract filter. -/
def preprocess_test_cases (rawTestCases : Dict CaseInfo) :
    Except Err (Dict PreprocessedCaseInfo) := do
  let parsedCases ← rawTestCases.mapM
    (fun p => (expand_parameter_variations RESOLVE_FUEL p.2).map (fun c => (p.1, c)))
  let resolvedBases ← resolve_bases parsedCases
  let expandedCases ← resolve_variations resolvedBases
  let concreteCases ← (expandedCases.filter (fun p => ¬p.2.abstract)).mapM
    (fun p => (ensure_string p.2.harness).map
      (fun hs => (p.1, PreprocessedCaseInfo.mk p.2.params hs)))
  return concreteCases

/-! ### Concrete inputs from the spec's examples -/

/-- Constructor shorthand for writing template literals. -/
def mkCase (ab : Bool) (ps : Dict Val) (h nm : Option String)
    (vars : Option (List CaseInfo)) (b : Option String) : CaseInfo :=
  .mk ab ps h nm vars b

/-- A variation branch carrying only `harness: "h1"`. -/
def branchH1 : CaseInfo := mkCase false [] (some "h1") none none none

/-- A variation branch carrying only `harness: "h2"`. -/
def branchH2 : CaseInfo := mkCase false [] (some "h2") none none none

/-- Base template with a variation setting harness h1, and an inheriting
template whose own variation at the same position sets harness h2. -/
def inputBaseVariationH1ChildVariationH2 : Dict CaseInfo :=
  [("B", mkCase false [] none none (some [branchH1]) none),
   ("C", mkCase false [] none none (some [branchH2]) (some "B"))]

/-- Base template with a variation setting harness h1, and an inheriting
template that itself sets harness h2. -/
def inputBaseVariationH1ChildH2 : Dict CaseInfo :=
  [("B", mkCase false [] none none (some [branchH1]) none),
   ("C", mkCase false [] (some "h2") none none (some "B"))]

/-- `{A: {base: "B"}, B: {base: "A"}}` -/
def inputCycleAB : Dict CaseInfo :=
  [("A", mkCase false [] none none none (some "B")),
   ("B", mkCase false [] none none none (some "A"))]

/-- Base `P = {params: {x: 1, y: 2}}` (with a harness so the flat cases
stay well-formed) and child `{base: "P", params: {y: 3}}`. -/
def inputParamOverride : Dict CaseInfo :=
  [("P", mkCase false [("x", .int 1), ("y", .int 2)] (some "h") none none none),
   ("C", mkCase false [("y", .int 3)] none none none (some "P"))]

/-- `{T: {harness: "h", params: {"[n]": [1, 2, 3]}}}` -/
def inputBracketSweep : Dict CaseInfo :=
  [("T", mkCase false [("[n]", vlist [.int 1, .int 2, .int 3])] (some "h") none none none)]

/-- `{T: {harness: "h", params: {"[n]": 5}}}` — a bracket-grammar key
whose value is not a list. -/
def inputBracketNonList : Dict CaseInfo :=
  [("T", mkCase false [("[n]", .int 5)] (some "h") none none none)]

/-- Two variation branches that generate the same name `T__x`, the
second one abstract. -/
def inputNameClashAbstract : Dict CaseInfo :=
  [("T", mkCase false [] (some "h") none
     (some [mkCase false [] none (some "x") none none,
            mkCase true [] none (some "x") none none]) none)]

/-- A single abstract template with no harness. -/
def inputAbstractNoHarness : Dict CaseInfo :=
  [("A", mkCase true [] none none none none)]

/-- An abstract template with a harness and no variations. -/
def inputAbstractLeaf : Dict CaseInfo :=
  [("T", mkCase true [] (some "h") none none none)]

/-- Abstract base `P` and concrete child `C` inheriting from it. -/
def inputAbstractBase : Dict CaseInfo :=
  [("P", mkCase true [] (some "h") none none none),
   ("C", mkCase false [] none none none (some "P"))]

/-- Abstract parent with one concrete variation branch. -/
def inputAbstractParentVariation : Dict CaseInfo :=
  [("T", mkCase true [] (some "h") none
     (some [mkCase false [("x", .int 1)] none none none none]) none)]

/-- A nameless variation branch whose own harness token alone exceeds 32
characters (its SHA-256 digest base64-encodes to a string starting with
a `+`, where the standard and URL-safe alphabets differ). -/
def branchLongHarness : CaseInfo :=
  mkCase false [] (some "harness_with_a_very_long_name_00010") none none none

/-- A template whose params hold a bracket sweep, used to observe the
bracket stage rewriting the template. -/
def bracketTemplate : CaseInfo :=
  mkCase false [("[n]", vlist [.int 1, .int 2])] (some "h") none none none

/-! ### Claim C7 -/

/-- Claim C7: on `{T: {harness: "h", params: {"[n]": [1, 2, 3]}}}` the
pipeline produces exactly the three concrete cases `T__n_1`, `T__n_2`,
`T__n_3`, each with harness `"h"` and params `{n: i}`; in particular the
bracket key `[n]` appears in no output params. -/
theorem bracket_sweep_produces_three_cases :
    preprocess_test_cases inputBracketSweep =
      .ok [("T__n_1", ⟨[("n", .int 1)], "h"⟩),
           ("T__n_2", ⟨[("n", .int 2)], "h"⟩),
           ("T__n_3", ⟨[("n", .int 3)], "h"⟩)] := by
  rfl

/-! ### Claim C5 -/

/-- Claim C5: `process_case` raises a CycleError whenever the requested
template is already on the processing stack (and is not memoised, and
does exist in the input); in particular `{A: {base: "B"}, B: {base:
"A"}}` fails base resolution with a CycleError. -/
theorem base_cycle_detection :
    (∀ (f : Nat) (name : String) (raw : Dict CaseInfo) (stack : List String)
        (processed : Dict CaseInfo),
      dictLookup processed name = none →
      (∃ c, dictLookup raw name = some c) →
      name ∈ stack →
      processCase (f + 1) name raw stack processed = .error .cycle) ∧
    resolve_bases inputCycleAB = .error .cycle := by
  constructor
  · intro f name raw stack processed hmemo hraw hstack
    obtain ⟨c, hc⟩ := hraw
    simp [processCase, hmemo, hc, hstack]
  · rfl

/-- Witness for `base_cycle_detection`: the hypotheses hold at the
concrete input of the cycle example. -/
theorem base_cycle_detection_witness :
    processCase 1 "A" inputCycleAB ["B", "A"] [] = .error .cycle :=
  base_cycle_detection.1 0 "A" inputCycleAB ["B", "A"] [] rfl
    ⟨mkCase false [] none none none (some "B"), rfl⟩ (by simp)

/-! ### Claim C10 -/

/-- Claim C10: during variation expansion every leaf — abstract ones
included — is registered in the accumulated output before abstract
filtering: an abstract leaf whose name is already present raises the
name-collision error, an abstract leaf with a fresh name is registered
(and never raises the missing-harness error, harness or not), and
concretely a clashing abstract leaf fails the whole pipeline while an
abstract harness-less leaf is silently dropped from the output. -/
theorem abstract_leaves_registered_before_filter :
    (∀ (f : Nat) (name : String) (c : CaseInfo) (acc : Dict CaseInfo),
      c.variations = none → c.abstract = true → dictContains acc name = true →
      expandRecursive (f + 1) name c acc = .error .nameCollision) ∧
    (∀ (f : Nat) (name : String) (c : CaseInfo) (acc : Dict CaseInfo),
      c.variations = none → c.abstract = true → dictContains acc name = false →
      expandRecursive (f + 1) name c acc = .ok (acc ++ [(name, c)])) ∧
    preprocess_test_cases inputNameClashAbstract = .error .nameCollision ∧
    preprocess_test_cases inputAbstractNoHarness = .ok [] := by
  refine ⟨?_, ?_, rfl, rfl⟩
  · intro f name c acc hv habs hacc
    simp [expandRecursive, hv, habs, hacc]
  · intro f name c acc hv habs hacc
    simp [expandRecursive, hv, habs, hacc]

/-- Witness for `abstract_leaves_registered_before_filter`: an abstract
harness-less leaf collides with an occupied name and registers under a
fresh one. -/
theorem abstract_leaves_registered_before_filter_witness :
    expandRecursive 1 "T__x" (mkCase true [] none none none none)
      [("T__x", mkCase false [] (some "h") none none none)] = .error .nameCollision ∧
    expandRecursive 1 "A" (mkCase true [] none none none none) [] =
      .ok [("A", mkCase true [] none none none none)] :=
  ⟨abstract_leaves_registered_before_filter.1 0 "T__x"
      (mkCase true [] none none none none)
      [("T__x", mkCase false [] (some "h") none none none)] rfl rfl (by decide),
   abstract_leaves_registered_before_filter.2.1 0 "A"
      (mkCase true [] none none none none) [] rfl rfl rfl⟩

/-! ### Claim C1 -/

/-- The conflict condition of `_check_conflict`: both sides set a truthy
harness and they differ, or the first side sets a parameter that the
second side sets to a different value. -/
def ConflictWith (ov dcw : CaseInfo) : Prop :=
  (optStrTruthy ov.harness = true ∧ optStrTruthy dcw.harness = true ∧
    ov.harness ≠ dcw.harness) ∨
  (∃ k v v2, (k, v) ∈ ov.params ∧ dictLookup dcw.params k = some v2 ∧ v2 ≠ v)

theorem checkParamsConflict_ok_or_conflict (l : List (String × Val)) (d : Dict Val) :
    checkParamsConflict l d = .ok () ∨ checkParamsConflict l d = .error .conflict := by
  induction l with
  | nil => exact Or.inl rfl
  | cons kv rest ih =>
    obtain ⟨k, v⟩ := kv
    simp only [checkParamsConflict]
    cases hl : dictLookup d k with
    | none => exact ih
    | some v2 =>
      by_cases hv : v2 = v
      · simp [hv, ih]
      · simp [hv]

theorem check_conflict_ok_or_conflict (ov dcw : CaseInfo) :
    check_conflict ov dcw = .ok () ∨ check_conflict ov dcw = .error .conflict := by
  unfold check_conflict
  split
  · exact Or.inr rfl
  · exact checkParamsConflict_ok_or_conflict ov.params dcw.params

theorem checkParamsConflict_ne_ok (l : List (String × Val)) (d : Dict Val)
    (h : ∃ k v v2, (k, v) ∈ l ∧ dictLookup d k = some v2 ∧ v2 ≠ v) :
    checkParamsConflict l d ≠ .ok () := by
  induction l with
  | nil => simp at h
  | cons kv rest ih =>
    obtain ⟨k, v, v2, hmem, hl, hne⟩ := h
    obtain ⟨k0, v0⟩ := kv
    simp only [checkParamsConflict]
    rcases List.mem_cons.mp hmem with hhead | htail
    · cases hhead
      rw [hl]
      have : ¬(v2 = v) := hne
      simp [this]
    · cases hl0 : dictLookup d k0 with
      | none => exact ih ⟨k, v, v2, htail, hl, hne⟩
      | some v20 =>
        by_cases hv0 : v20 = v0
        · simpa [hv0] using ih ⟨k, v, v2, htail, hl, hne⟩
        · simp [hv0]

theorem check_conflict_of_ConflictWith (ov dcw : CaseInfo) (h : ConflictWith ov dcw) :
    check_conflict ov dcw = .error .conflict := by
  rcases check_conflict_ok_or_conflict ov dcw with hok | herr
  · exfalso
    rcases h with ⟨h1, h2, h3⟩ | hp
    · unfold check_conflict at hok
      rw [if_pos ⟨h1, h2, h3⟩] at hok
      exact Except.noConfusion hok
    · unfold check_conflict at hok
      split at hok
      · exact Except.noConfusion hok
      · exact checkParamsConflict_ne_ok ov.params dcw.params hp hok
  · exact herr

theorem checkAllConflicts_error (l : List CaseInfo) (dcw : CaseInfo)
    (h : ∃ ov ∈ l, ConflictWith ov dcw) :
    checkAllConflicts l dcw = .error .conflict := by
  induction l with
  | nil => simp at h
  | cons hd rest ih =>
    obtain ⟨ov, hmem, hconf⟩ := h
    rcases List.mem_cons.mp hmem with hh | ht
    · subst hh
      simp [checkAllConflicts, check_conflict_of_ConflictWith _ _ hconf, Bind.bind, Except.bind]
    · rcases check_conflict_ok_or_conflict hd dcw with hok | herr
      · simpa [checkAllConflicts, hok, Bind.bind, Except.bind] using ih ⟨ov, ht, hconf⟩
      · simp [checkAllConflicts, herr, Bind.bind, Except.bind]

/-- Claim C1 (amended): the variation-subtree cross-merge checks every
base-side variation branch against the node receiving the merge — the
inheriting template itself, `dont_conflict_with` — and raises a
ConflictError whenever both set truthy differing harnesses or the
branch sets a parameter the receiving node sets differently.  In
particular, when the base's variation sets harness "h1" and the
inheriting template itself sets harness "h2", base resolution fails
with a ConflictError. -/
theorem cross_merge_conflict_with_receiving_node :
    (∀ (f : Nat) (origs : List CaseInfo) (toAdd : Option (List CaseInfo))
        (dcw : CaseInfo),
      (∃ ov ∈ origs, ConflictWith ov dcw) →
      expand_variations (f + 1) (some origs) toAdd dcw = .error .conflict) ∧
    resolve_bases inputBaseVariationH1ChildH2 = .error .conflict := by
  constructor
  · intro f origs toAdd dcw h
    simp [expand_variations, checkAllConflicts_error origs dcw h, Bind.bind, Except.bind]
  · rfl

/-- Witness for `cross_merge_conflict_with_receiving_node`: the
base-side branch `harness: "h1"` conflicts with a receiving node that
itself sets `harness: "h2"`. -/
theorem cross_merge_conflict_with_receiving_node_witness :
    expand_variations 1 (some [branchH1]) none (mkCase false [] (some "h2") none none (some "B")) =
      .error .conflict :=
  cross_merge_conflict_with_receiving_node.1 0 [branchH1] none
    (mkCase false [] (some "h2") none none (some "B"))
    ⟨branchH1, List.mem_singleton.mpr rfl, Or.inl (by decide)⟩

/-- Counterexample to claim C1 as stated: when the base template's
variation sets harness "h1" and it is the inheriting template's
*variation* (not the template itself) that sets harness "h2", base
resolution succeeds — the child-side branch is nested under the
base-side branch instead of being conflict-checked against it. -/
theorem base_variation_vs_child_variation_no_conflict :
    resolve_bases inputBaseVariationH1ChildVariationH2 =
      .ok [("B", mkCase false [] none none (some [branchH1]) none),
           ("C", mkCase false [] none none
             (some [mkCase false [] (some "h1") none (some [branchH2]) none]) none)] := by
  rfl

/-! ### Claim C6 -/

/-- Claim C6: merging a template with its base combines parameters by
simple key-by-key override, the variant's value replacing the base's
(`{**base.params, **variant.params}`); concretely, base `P = {params:
{x: 1, y: 2}}` with child `{base: "P", params: {y: 3}}` resolves to
merged params `{x: 1, y: 3}`. -/
theorem merge_params_simple_override :
    (∀ (f : Nat) (b v : CaseInfo) (pa : Bool) (m : CaseInfo),
      merge_base_and_variation f b v pa = .ok m →
      m.params = dictMerge b.params v.params) ∧
    resolve_bases inputParamOverride =
      .ok [("P", mkCase false [("x", .int 1), ("y", .int 2)] (some "h") none none none),
           ("C", mkCase false [("x", .int 1), ("y", .int 3)] (some "h") none none none)] := by
  constructor
  · intro f b v pa m h
    unfold merge_base_and_variation at h
    cases he : expand_variations f b.variations v.variations v with
    | error e => simp [he, Bind.bind, Except.bind] at h
    | ok vs =>
      simp only [he, Bind.bind, Except.bind, pure, Except.pure, Except.ok.injEq] at h
      subst h
      rfl
  · rfl

/-- The concrete merged template of the C6 example. -/
def mergedParamOverride : CaseInfo :=
  mkCase false [("x", .int 1), ("y", .int 3)] (some "h") none none none

/-- Witness for `merge_params_simple_override`: the base/child pair of
the example satisfies the hypothesis concretely. -/
theorem merge_params_simple_override_witness :
    mergedParamOverride.params =
      dictMerge [("x", Val.int 1), ("y", Val.int 2)] [("y", Val.int 3)] :=
  merge_params_simple_override.1 1
    (mkCase false [("x", .int 1), ("y", .int 2)] (some "h") none none none)
    (mkCase false [("y", .int 3)] none none none (some "P"))
    false mergedParamOverride rfl

/-! ### Claim C8 -/

/-- Claim C8: variation expansion merges with `preserve_abstract =
True`, so the merged abstract flag is `child.abstract OR
parent.abstract`, while base resolution merges with `preserve_abstract
= False`, so the merged flag is the current template's alone.
Concretely: a concrete child of an abstract base is published, and a
concrete variation of an abstract parent is filtered out. -/
theorem abstract_flag_propagation :
    (∀ (f : Nat) (b v m : CaseInfo),
      merge_base_and_variation f b v true = .ok m →
      m.abstract = (v.abstract || b.abstract)) ∧
    (∀ (f : Nat) (b v m : CaseInfo),
      merge_base_and_variation f b v false = .ok m →
      m.abstract = v.abstract) ∧
    preprocess_test_cases inputAbstractBase = .ok [("C", ⟨[], "h"⟩)] ∧
    preprocess_test_cases inputAbstractParentVariation = .ok [] := by
  refine ⟨?_, ?_, rfl, rfl⟩
  · intro f b v m h
    unfold merge_base_and_variation at h
    cases he : expand_variations f b.variations v.variations v with
    | error e => simp [he, Bind.bind, Except.bind] at h
    | ok vs =>
      simp only [he, Bind.bind, Except.bind, pure, Except.pure, Except.ok.injEq] at h
      subst h
      simp [CaseInfo.abstract]
  · intro f b v m h
    unfold merge_base_and_variation at h
    cases he : expand_variations f b.variations v.variations v with
    | error e => simp [he, Bind.bind, Except.bind] at h
    | ok vs =>
      simp only [he, Bind.bind, Except.bind, pure, Except.pure, Except.ok.injEq] at h
      subst h
      simp [CaseInfo.abstract]

/-- The merged results used to witness `abstract_flag_propagation`. -/
def mergedAbstractVariation : CaseInfo := mkCase true [("x", .int 1)] (some "h") none none none

def mergedConcreteOfAbstractBase : CaseInfo := mkCase false [] (some "h") none none none

/-- Witness for `abstract_flag_propagation`: both merge directions
evaluated at concrete inputs. -/
theorem abstract_flag_propagation_witness :
    mergedAbstractVariation.abstract = (false || true) ∧
    mergedConcreteOfAbstractBase.abstract = false :=
  ⟨abstract_flag_propagation.1 1
      (mkCase true [] (some "h") none none none)
      (mkCase false [("x", .int 1)] none none none none)
      mergedAbstractVariation rfl,
   abstract_flag_propagation.2.1 1
      (mkCase true [] (some "h") none none none)
      (mkCase false [] none none none (some "P"))
      mergedConcreteOfAbstractBase rfl⟩

/-! ### Claim C2 -/

/-- Modelled from the spec: the long-name formula of §4.4 as the spec
words it — parent, `__`, first 32 characters of the joined token string,
`__`, first 3 characters of the *URL-safe* base64, no-padding encoding
of the SHA-256 digest of the full joined string.  (The source instead
uses `base64.b64encode`, the standard alphabet.) -/
def specLongVariationName (baseName : String) (v : CaseInfo) : String :=
  baseName ++ "__" ++ (pyJoin "__" (variationTokens v)).take 32 ++ "__" ++
    (b64NoPad b64AlphaUrl (sha256 (strBytes (pyJoin "__" (variationTokens v))))).take 3

/-- Counterexample to claim C2 as stated: a nameless branch whose joined
token string is 35 characters long and whose digest's base64 encoding
begins with `+`; the generated name uses the standard alphabet, so it
differs from the URL-safe formula of the claim. -/
theorem long_name_urlsafe_counterexample :
    32 < (pyJoin "__" (variationTokens branchLongHarness)).length ∧
    optStrTruthy branchLongHarness.cname = false ∧
    generate_variation_name "p" branchLongHarness ≠
      specLongVariationName "p" branchLongHarness := by
  exact ⟨by decide, by decide, by decide⟩

/-- Claim C2 (amended): for every nameless variation branch whose joined
token string exceeds 32 characters, the generated case name is the
parent name, `__`, the first 32 characters of the joined string, `__`,
and the first 3 characters of the *standard* base64 no-padding encoding
of the SHA-256 digest of the joined string; the name is a pure function
of parent name and branch, hence identical across repeated runs. -/
theorem long_name_truncation_hash :
    ∀ (baseName : String) (v : CaseInfo),
      optStrTruthy v.cname = false →
      32 < (pyJoin "__" (variationTokens v)).length →
      generate_variation_name baseName v =
        baseName ++ "__" ++ (pyJoin "__" (variationTokens v)).take 32 ++ "__" ++
          (b64NoPad b64AlphaStd (sha256 (strBytes (pyJoin "__" (variationTokens v))))).take 3 := by
  intro baseName v hname hlen
  unfold generate_variation_name
  rw [hname]
  simp only [Bool.false_eq_true, if_false]
  cases hp : (variationTokens v).isEmpty with
  | true =>
    exfalso
    rw [List.isEmpty_iff.mp hp] at hlen
    simp [pyJoin] at hlen
  | false =>
    simp only [hp, Bool.false_eq_true, if_false, MAX_PARAM_STR_LEN]
    rw [if_neg (by omega)]

/-- Witness for `long_name_truncation_hash` at the concrete long-harness
branch. -/
theorem long_name_truncation_hash_witness :
    generate_variation_name "p" branchLongHarness =
      "p" ++ "__" ++ (pyJoin "__" (variationTokens branchLongHarness)).take 32 ++ "__" ++
        (b64NoPad b64AlphaStd (sha256 (strBytes (pyJoin "__" (variationTokens branchLongHarness))))).take 3 :=
  long_name_truncation_hash "p" branchLongHarness (by decide) (by decide)

/-! ### Bracket-stage pass-through lemmas (shared by C3, C9, C4) -/

/-- A parameter entry that the collection loop of
`_expand_parameter_variations` leaves untouched: each bracket form
either fails to match the key or the value is not a list. -/
def SkipsBracket (kv : String × Val) : Prop :=
  (singleMatch kv.1 = none ∨ kv.2.isList = false) ∧
  (multiMatch kv.1 = none ∨ kv.2.isList = false)

theorem collectParamVariation_skip (st : CollectState) (kv : String × Val)
    (h : SkipsBracket kv) : collectParamVariation st kv = .ok st := by
  obtain ⟨h1, h2⟩ := h
  obtain ⟨g, r, hp⟩ := st
  cases hs : singleMatch kv.1 with
  | some nm =>
    have hl : kv.2.isList = false := by
      rcases h1 with h1 | h1
      · rw [hs] at h1; exact absurd h1 (by simp)
      · exact h1
    cases hm : multiMatch kv.1 with
    | some ns => simp [collectParamVariation, hs, hm, hl, pure, Except.pure]
    | none => simp [collectParamVariation, hs, hm, hl, pure, Except.pure]
  | none =>
    cases hm : multiMatch kv.1 with
    | some ns =>
      have hl : kv.2.isList = false := by
        rcases h2 with h2 | h2
        · rw [hm] at h2; exact absurd h2 (by simp)
        · exact h2
      simp [collectParamVariation, hs, hm, hl, pure, Except.pure]
    | none => simp [collectParamVariation, hs, hm, pure, Except.pure]

theorem collectFold_skip (ps : Dict Val) (st : CollectState)
    (h : ∀ kv ∈ ps, SkipsBracket kv) :
    ps.foldlM collectParamVariation st = .ok st := by
  induction ps generalizing st with
  | nil => rfl
  | cons kv rest ih =>
    have hkv := h kv (List.mem_cons_self kv rest)
    have hrest : ∀ kv2 ∈ rest, SkipsBracket kv2 :=
      fun kv2 hm => h kv2 (List.mem_cons_of_mem kv hm)
    simp [List.foldlM, collectParamVariation_skip st kv hkv, Bind.bind, Except.bind,
      ih st hrest]

theorem expand_parameter_variations_skip (f : Nat) (c : CaseInfo)
    (hps : ∀ kv ∈ c.params, SkipsBracket kv) (hv : c.variations = none) :
    expand_parameter_variations (f + 1) c = .ok c := by
  obtain ⟨ab, ps, h, nm, vars, b⟩ := c
  simp only [CaseInfo.variations] at hv
  subst hv
  simp only [CaseInfo.params] at hps
  simp [expand_parameter_variations, collectFold_skip ps ([], [], false) hps,
    Bind.bind, Except.bind, optListTruthy, pure, Except.pure]

/-! ### Claim C3 -/

/-- Counterexample to claim C3 as stated: `"[n]"` matches the bracket
grammar and its value `5` is not a list, yet preprocessing succeeds and
the key is kept verbatim as an ordinary parameter — no ShapeError. -/
theorem bracket_nonlist_value_kept :
    singleMatch "[n]" = some "n" ∧
    Val.isList (Val.int 5) = false ∧
    preprocess_test_cases inputBracketNonList =
      .ok [("T", ⟨[("[n]", Val.int 5)], "h"⟩)] := by
  exact ⟨by decide, rfl, rfl⟩

/-- Claim C3 (amended): a bracket-grammar key whose value is not a list
is silently kept as an ordinary parameter — on a template all of whose
parameter values are non-lists (and with no explicit variations) the
bracket-expansion stage returns the template unchanged, raising no
error. -/
theorem bracket_nonlist_values_no_shape_error :
    ∀ (f : Nat) (c : CaseInfo),
      (∀ kv ∈ c.params, kv.2.isList = false) →
      c.variations = none →
      expand_parameter_variations (f + 1) c = .ok c := by
  intro f c hps hv
  exact expand_parameter_variations_skip f c
    (fun kv hm => ⟨Or.inr (hps kv hm), Or.inr (hps kv hm)⟩) hv

/-- Witness for `bracket_nonlist_values_no_shape_error` at the C3
example template itself. -/
theorem bracket_nonlist_values_no_shape_error_witness :
    expand_parameter_variations 10
      (mkCase false [("[n]", Val.int 5)] (some "h") none none none) =
      .ok (mkCase false [("[n]", Val.int 5)] (some "h") none none none) :=
  bracket_nonlist_values_no_shape_error 9
    (mkCase false [("[n]", Val.int 5)] (some "h") none none none)
    (by intro kv hm; simp [mkCase, CaseInfo.params] at hm; rw [hm]; rfl)
    rfl

/-! ### Claim C9 -/

/-- The post-state of the bracket stage on `bracketTemplate`. -/
def bracketTemplateAfter : CaseInfo :=
  mkCase false [] (some "h") none
    (some [mkCase false [("n", .int 1)] none none none none,
           mkCase false [("n", .int 2)] none none none none]) none

/-- Counterexample to claim C9 as stated: `_expand_parameter_variations`
updates the parsed template in place (the source deletes bracket keys
from `params` and assigns `variations` on the same object), observable
here as the stage's post-state differing from the input template. -/
theorem bracket_stage_rewrites_template :
    expand_parameter_variations 10 bracketTemplate = .ok bracketTemplateAfter ∧
    bracketTemplateAfter.params ≠ bracketTemplate.params := by
  exact ⟨rfl, by decide⟩

/-- Claim C9 (amended): only the bracket-expansion stage rewrites
templates (in place, in the source); a template with no bracket-syntax
parameter keys (and no variations to recurse into) passes through that
stage unchanged — the later stages build new values via `model_copy`
and constructors. -/
theorem no_bracket_template_unchanged :
    ∀ (f : Nat) (c : CaseInfo),
      (∀ kv ∈ c.params, singleMatch kv.1 = none ∧ multiMatch kv.1 = none) →
      c.variations = none →
      expand_parameter_variations (f + 1) c = .ok c := by
  intro f c hps hv
  exact expand_parameter_variations_skip f c
    (fun kv hm => ⟨Or.inl (hps kv hm).1, Or.inl (hps kv hm).2⟩) hv

/-- Witness for `no_bracket_template_unchanged` at a concrete
bracket-free template. -/
theorem no_bracket_template_unchanged_witness :
    expand_parameter_variations 10
      (mkCase false [("x", Val.int 1)] (some "h") none none none) =
      .ok (mkCase false [("x", Val.int 1)] (some "h") none none none) :=
  no_bracket_template_unchanged 9
    (mkCase false [("x", Val.int 1)] (some "h") none none none)
    (by intro kv hm; simp [mkCase, CaseInfo.params] at hm; rw [hm]; exact ⟨rfl, rfl⟩)
    rfl

/-! ### Claim C4 -/

theorem exceptOkBind {α β : Type} (a : α) (f : α → Except Err β) :
    (Except.ok a >>= f) = f a := rfl

/-- A template with no `base`, no `variations`, no bracket-syntax
parameter keys, not abstract, and a truthy harness. -/
def FlatCase (c : CaseInfo) : Prop :=
  c.base = none ∧ c.variations = none ∧ c.abstract = false ∧
  optStrTruthy c.harness = true ∧
  ∀ kv ∈ c.params, singleMatch kv.1 = none ∧ multiMatch kv.1 = none

theorem dictContains_eq_false {α : Type} {d : Dict α} {k : String}
    (h : k ∉ d.map Prod.fst) : dictContains d k = false := by
  simp only [dictContains, List.any_eq_false, decide_eq_true_eq]
  intro p hp he
  exact h (List.mem_map.mpr ⟨p, hp, he⟩)

theorem dictLookup_eq_none {α : Type} {d : Dict α} {k : String}
    (h : k ∉ d.map Prod.fst) : dictLookup d k = none := by
  have : d.find? (fun p => p.1 = k) = none := by
    rw [List.find?_eq_none]
    intro p hp
    simp only [decide_eq_true_eq]
    intro he
    exact h (List.mem_map.mpr ⟨p, hp, he⟩)
  simp [dictLookup, this]

theorem dictLookup_append_cons {α : Type} (d1 d2 : Dict α) (k : String) (c : α)
    (h : k ∉ d1.map Prod.fst) : dictLookup (d1 ++ (k, c) :: d2) k = some c := by
  have h1 : d1.find? (fun p => p.1 = k) = none := by
    rw [List.find?_eq_none]
    intro p hp
    simp only [decide_eq_true_eq]
    intro he
    exact h (List.mem_map.mpr ⟨p, hp, he⟩)
  simp [dictLookup, List.find?_append, h1, List.find?]

theorem dictInsert_fresh {α : Type} (d : Dict α) (k : String) (v : α)
    (h : dictContains d k = false) : dictInsert d k v = d ++ [(k, v)] := by
  simp [dictInsert, h]

theorem processCase_flat_step (f : Nat) (n : String) (raw done : Dict CaseInfo)
    (c : CaseInfo) (h1 : dictLookup done n = none) (h2 : dictLookup raw n = some c)
    (h3 : c.base = none) :
    processCase (f + 1) n raw [] done = .ok (dictInsert done n c, c) := by
  simp [processCase, h1, h2, h3]

theorem resolveBasesFold_flat (raw : Dict CaseInfo)
    (hb : ∀ p ∈ raw, p.2.base = none)
    (hnd : (raw.map Prod.fst).Nodup) :
    ∀ (todo done : Dict CaseInfo), raw = done ++ todo →
      todo.foldlM
        (fun processed p => (processCase RESOLVE_FUEL p.1 raw [] processed).map
          (fun r => r.1)) done = .ok raw := by
  intro todo
  induction todo with
  | nil =>
    intro done hr
    rw [List.append_nil] at hr
    subst hr
    rfl
  | cons hd rest ih =>
    intro done hr
    obtain ⟨n, c⟩ := hd
    have hmem : (n, c) ∈ raw := by rw [hr]; exact List.mem_append_right done (List.mem_cons_self _ _)
    have hnd2 : n ∉ done.map Prod.fst := by
      rw [hr, List.map_append, List.map_cons] at hnd
      have := (List.nodup_append.mp hnd).2.2
      intro hin
      exact this hin (List.mem_cons_self _ _)
    have h1 : dictLookup done n = none := dictLookup_eq_none hnd2
    have h2 : dictLookup raw n = some c := by
      rw [hr]; exact dictLookup_append_cons done rest n c hnd2
    have h3 : c.base = none := hb (n, c) hmem
    have hstep : processCase RESOLVE_FUEL n raw [] done = .ok (done ++ [(n, c)], c) := by
      have hRF : RESOLVE_FUEL = 999 + 1 := rfl
      rw [hRF, processCase_flat_step 999 n raw done c h1 h2 h3,
        dictInsert_fresh done n c (dictContains_eq_false hnd2)]
    simp only [List.foldlM, hstep, Except.map, Bind.bind, Except.bind]
    exact ih (done ++ [(n, c)]) (by rw [hr, List.append_assoc]; rfl)

theorem resolve_bases_flat (raw : Dict CaseInfo)
    (hb : ∀ p ∈ raw, p.2.base = none)
    (hnd : (raw.map Prod.fst).Nodup) :
    resolve_bases raw = .ok raw :=
  resolveBasesFold_flat raw hb hnd raw [] rfl

theorem expandRecursive_leaf (f : Nat) (name : String) (c : CaseInfo)
    (acc : Dict CaseInfo) (hv : c.variations = none)
    (hh : optStrTruthy c.harness = true ∨ c.abstract = true)
    (hc : dictContains acc name = false) :
    expandRecursive (f + 1) name c acc = .ok (acc ++ [(name, c)]) := by
  rcases hh with hh | hh <;> simp [expandRecursive, hv, hh, hc]

theorem resolveVariationsFold_flat (raw : Dict CaseInfo)
    (hleaf : ∀ p ∈ raw, p.2.variations = none ∧ optStrTruthy p.2.harness = true)
    (hnd : (raw.map Prod.fst).Nodup) :
    ∀ (todo done : Dict CaseInfo), raw = done ++ todo →
      todo.foldlM (fun acc p => expandRecursive RESOLVE_FUEL p.1 p.2 acc) done =
        .ok raw := by
  intro todo
  induction todo with
  | nil =>
    intro done hr
    rw [List.append_nil] at hr
    subst hr
    rfl
  | cons hd rest ih =>
    intro done hr
    obtain ⟨n, c⟩ := hd
    have hmem : (n, c) ∈ raw := by rw [hr]; exact List.mem_append_right done (List.mem_cons_self _ _)
    have hnd2 : n ∉ done.map Prod.fst := by
      rw [hr, List.map_append, List.map_cons] at hnd
      have := (List.nodup_append.mp hnd).2.2
      intro hin
      exact this hin (List.mem_cons_self _ _)
    have hstep : expandRecursive RESOLVE_FUEL n c done = .ok (done ++ [(n, c)]) := by
      have hRF : RESOLVE_FUEL = 999 + 1 := rfl
      rw [hRF]
      exact expandRecursive_leaf 999 n c done (hleaf (n, c) hmem).1
        (Or.inl (hleaf (n, c) hmem).2) (dictContains_eq_false hnd2)
    simp only [List.foldlM, hstep, Bind.bind, Except.bind]
    exact ih (done ++ [(n, c)]) (by rw [hr, List.append_assoc]; rfl)

theorem resolve_variations_flat (raw : Dict CaseInfo)
    (hleaf : ∀ p ∈ raw, p.2.variations = none ∧ optStrTruthy p.2.harness = true)
    (hnd : (raw.map Prod.fst).Nodup) :
    resolve_variations raw = .ok raw :=
  resolveVariationsFold_flat raw hleaf hnd raw [] rfl

theorem mapM_expandPV_flat (raw : Dict CaseInfo)
    (h : ∀ p ∈ raw, (∀ kv ∈ p.2.params, SkipsBracket kv) ∧ p.2.variations = none) :
    raw.mapM
      (fun p => (expand_parameter_variations RESOLVE_FUEL p.2).map (fun c => (p.1, c))) =
      .ok raw := by
  induction raw with
  | nil => rfl
  | cons hd rest ih =>
    have hh := h hd (List.mem_cons_self hd rest)
    have hstep : expand_parameter_variations RESOLVE_FUEL hd.2 = .ok hd.2 := by
      have hRF : RESOLVE_FUEL = 999 + 1 := rfl
      rw [hRF]
      exact expand_parameter_variations_skip 999 hd.2 hh.1 hh.2
    have hrest := ih (fun p hp => h p (List.mem_cons_of_mem hd hp))
    have hhead : Except.map (fun c => (hd.1, c))
        (expand_parameter_variations RESOLVE_FUEL hd.2) = Except.ok (hd.1, hd.2) := by
      rw [hstep]; rfl
    rw [List.mapM_cons]
    simp only [hhead, hrest, exceptOkBind]
    rfl

theorem finalStage_flat (d : Dict CaseInfo)
    (h : ∀ p ∈ d, p.2.abstract = false ∧ optStrTruthy p.2.harness = true) :
    (d.filter (fun p => ¬p.2.abstract)).mapM
      (fun p => (ensure_string p.2.harness).map
        (fun hs => (p.1, PreprocessedCaseInfo.mk p.2.params hs))) =
      .ok (d.map fun p => (p.1, PreprocessedCaseInfo.mk p.2.params (p.2.harness.getD ""))) := by
  induction d with
  | nil => rfl
  | cons hd rest ih =>
    have hh := h hd (List.mem_cons_self hd rest)
    obtain ⟨hab, hht⟩ := hh
    have hsome : ∃ hs, hd.2.harness = some hs := by
      cases hhar : hd.2.harness with
      | none => rw [hhar] at hht; exact absurd hht (by simp [optStrTruthy])
      | some s => exact ⟨s, rfl⟩
    obtain ⟨hs, hhar⟩ := hsome
    have hrest := ih (fun p hp => h p (List.mem_cons_of_mem hd hp))
    rw [List.filter_cons]
    have hcond : decide (¬(hd.2.abstract = true)) = true := by rw [hab]; rfl
    rw [if_pos hcond]
    have hhead : Except.map
        (fun hs2 => (hd.1, PreprocessedCaseInfo.mk hd.2.params hs2))
        (ensure_string hd.2.harness) =
        Except.ok (hd.1, PreprocessedCaseInfo.mk hd.2.params hs) := by
      rw [hhar]; rfl
    rw [List.mapM_cons]
    simp only [hhead, hrest, exceptOkBind]
    rw [List.map_cons]
    simp [pure, Except.pure, hhar]

/-- Counterexample to claim C4 as stated: an abstract template with a
harness set and no `base`/`variations`/bracket keys is dropped by the
abstract filter, so the output is empty rather than the 1:1 mapping. -/
theorem abstract_template_breaks_identity :
    preprocess_test_cases inputAbstractLeaf = .ok [] ∧
    ([] : Dict PreprocessedCaseInfo) ≠
      inputAbstractLeaf.map
        (fun p => (p.1, PreprocessedCaseInfo.mk p.2.params (p.2.harness.getD ""))) := by
  exact ⟨rfl, by decide⟩

/-- Claim C4 (amended): for every input mapping in which no template has
a `base` field, a `variations` field, or bracket-syntax parameter keys,
and every template is non-abstract with a truthy (non-empty) harness,
the pipeline's output is exactly the 1:1 mapping from each input name
to that template's `{params, harness}`. -/
theorem flat_input_identity :
    ∀ (raw : Dict CaseInfo),
      (raw.map Prod.fst).Nodup →
      (∀ p ∈ raw, FlatCase p.2) →
      preprocess_test_cases raw =
        .ok (raw.map
          (fun p => (p.1, PreprocessedCaseInfo.mk p.2.params (p.2.harness.getD "")))) := by
  intro raw hnd hflat
  have h1 := mapM_expandPV_flat raw (fun p hp =>
    ⟨fun kv hkv => ⟨Or.inl ((hflat p hp).2.2.2.2 kv hkv).1,
                    Or.inl ((hflat p hp).2.2.2.2 kv hkv).2⟩,
     (hflat p hp).2.1⟩)
  have h2 := resolve_bases_flat raw (fun p hp => (hflat p hp).1) hnd
  have h3 := resolve_variations_flat raw
    (fun p hp => ⟨(hflat p hp).2.1, (hflat p hp).2.2.2.1⟩) hnd
  have h4 := finalStage_flat raw
    (fun p hp => ⟨(hflat p hp).2.2.1, (hflat p hp).2.2.2.1⟩)
  simp only [preprocess_test_cases, h1, h2, h3, h4, exceptOkBind]
  rfl

/-- Witness for `flat_input_identity` at a concrete flat input. -/
theorem flat_input_identity_witness :
    preprocess_test_cases [("X", mkCase false [("a", Val.int 1)] (some "hx") none none none)] =
      .ok [("X", PreprocessedCaseInfo.mk [("a", Val.int 1)] "hx")] :=
  flat_input_identity [("X", mkCase false [("a", Val.int 1)] (some "hx") none none none)]
    (by decide)
    (by
      intro p hp
      simp only [List.mem_singleton] at hp
      rw [hp]
      refine ⟨rfl, rfl, rfl, rfl, ?_⟩
      intro kv hkv
      simp only [mkCase, CaseInfo.params, List.mem_singleton] at hkv
      rw [hkv]
      exact ⟨rfl, rfl⟩)
